import Mathlib

/-!
Verification development for the financial-dashboard repository's
polling / rate-limit coordination layer.

The definitions below are shallow embeddings of the TypeScript source:

* `src/hooks/usePollingData.ts` — the generic Poller (`fetchData` guard);
* `src/services/alphaVantage.ts` — the Quote/Series Adapter: the module-level
  single-flight slot (`lock`), the rate gate (`throttle` / `beginCooldown` /
  `isRateLimitResponse`), `getQuote`, and `getBatchQuotes`;
* `src/hooks/useStockData.ts` — the freshness-TTL check in `fetchQuote`;
* `src/hooks/useMarketIndices.ts` — `fetchIndices` with its per-symbol
  cooldown map;
* `src/hooks/usePortfolioData.ts` — the per-holding merge in `fetchPortfolio`.

Timestamps are modelled as `Nat` milliseconds, JS numbers as `Rat` where the
properties depend on arithmetic.  Network responses are supplied by explicit
oracle functions, and each model records the outbound calls it issues so that
call-counting and call-spacing properties can be stated.
-/

namespace FinDash

/-! ### Poller: usePollingData.ts

`fetchData` is guarded by the `isFetching` ref: a tick (or `refetch()`) that
arrives while a previous invocation is pending returns immediately without
invoking the fetcher.  In the single-threaded event loop the guard check and
the `isFetching.current = true` write form one synchronous segment, modelled
as one `tick` step; the `finally` block that clears the flag is the
`complete` step.  `started` counts fetcher invocations begun, `inFlight`
those begun and not yet completed. -/

structure PollState where
  isFetching : Bool
  inFlight : Nat
  started : Nat
  deriving DecidableEq

inductive PollEvent where
  | tick
  | complete
  deriving DecidableEq

def pollInit : PollState := ⟨false, 0, 0⟩

def pollStep (enabled : Bool) (s : PollState) : PollEvent → PollState
  | .tick =>
      if !enabled || s.isFetching then s
      else { isFetching := true, inFlight := s.inFlight + 1, started := s.started + 1 }
  | .complete =>
      if s.inFlight = 0 then s
      else { isFetching := false, inFlight := s.inFlight - 1, started := s.started }

def pollRun (enabled : Bool) (es : List PollEvent) : PollState :=
  es.foldl (pollStep enabled) pollInit

/-- The coupling between the guard flag and the number of in-flight fetches. -/
def PollInv (s : PollState) : Prop :=
  s.inFlight = (if s.isFetching then 1 else 0)

/-! ### Single-flight slot: alphaVantage.ts `lock`

The service keeps one module-level `inflightPromise`.  `lock(fn)` starts
`fn()` only when the slot is empty, installing the new promise; otherwise the
existing promise is returned unchanged, so the caller awaits the in-flight
result.  `getQuote(symbol, skipLock = true)` — used by `getBatchQuotes` —
bypasses `lock` and always issues its own request.  Promises are modelled by
numeric ids; `outstanding` lists the outbound network requests currently in
flight, tagged with the request that started them. -/

inductive AVReq where
  | quoteReq (symbol : String)
  | seriesReq (symbol : String) (interval : String)
  deriving DecidableEq

structure LockState where
  slot : Option Nat
  nextId : Nat
  outstanding : List (Nat × AVReq)
  deriving DecidableEq

def lockInit : LockState := ⟨none, 0, []⟩

/-- Model of `lock(fn)`: start a request only when the slot is empty; otherwise hand
back the in-flight promise.  Returns the state and the promise id the caller
awaits. -/
def lockCall (s : LockState) (r : AVReq) : LockState × Nat :=
  match s.slot with
  | none => (⟨some s.nextId, s.nextId + 1, (s.nextId, r) :: s.outstanding⟩, s.nextId)
  | some i => (s, i)

/-- Model of `getQuote(symbol, true)`: the skip-lock path always issues its own
request, regardless of the slot. -/
def skipLockCall (s : LockState) (r : AVReq) : LockState × Nat :=
  (⟨s.slot, s.nextId + 1, (s.nextId, r) :: s.outstanding⟩, s.nextId)

/-- Resolution of promise `i`: the `finally` clears the slot when it held
this promise, and the network request leaves flight. -/
def finishCall (s : LockState) (i : Nat) : LockState :=
  ⟨if s.slot = some i then none else s.slot, s.nextId,
   s.outstanding.filter (fun p => p.1 ≠ i)⟩

inductive LockEvent where
  | locked (r : AVReq)
  | skip (r : AVReq)
  | finish (i : Nat)
  deriving DecidableEq

def lockStep (s : LockState) : LockEvent → LockState
  | .locked r => (lockCall s r).1
  | .skip r => (skipLockCall s r).1
  | .finish i => finishCall s i

def lockRun (es : List LockEvent) : LockState := es.foldl lockStep lockInit

def isSkipEvent : LockEvent → Bool
  | .skip _ => true
  | _ => false

/-- Traces in which every call goes through the lock (no `skipLock = true`). -/
def LockedOnly (es : List LockEvent) : Prop := ∀ e ∈ es, isSkipEvent e = false

/-- For locked-only traces: either the slot is empty and nothing is in
flight, or the slot holds the single in-flight request. -/
def LockInv (s : LockState) : Prop :=
  (s.slot = none ∧ s.outstanding = []) ∨
  (∃ i r, s.slot = some i ∧ s.outstanding = [(i, r)])

/-! ### Rate gate and quote classification: alphaVantage.ts

`nextAvailableTime` (initially 0) is the gate.  `throttle()` waits until
`Date.now() >= nextAvailableTime`; `beginCooldown()` sets
`nextAvailableTime = Date.now() + RATE_LIMIT_DELAY_MS`; it is invoked only
when `isRateLimitResponse` matches one of the known phrases
(case-sensitive `String.prototype.includes`).  Payload fields are modelled
already parsed to numbers (`Rat`) and the trading day to `Nat` ms, since no
claim depends on numeric/date parse failures; a missing or empty
`'01. symbol'` field is the empty string. -/

def RATE_LIMIT_DELAY_MS : Nat := 12000

/-- Whether the second list starts the first (JS `startsWith` core). -/
def listStartsWith : List Char → List Char → Bool
  | _, [] => true
  | [], _ :: _ => false
  | c :: s, d :: p => c = d && listStartsWith s p

/-- Substring occurrence on character lists. -/
def listContainsSub (pat : List Char) : List Char → Bool
  | [] => pat.isEmpty
  | c :: t => listStartsWith (c :: t) pat || listContainsSub pat t

/-- JS `s.includes(pat)`. -/
def strIncludes (s pat : String) : Bool := listContainsSub pat.data s.data

def rateLimitPhrases : List String :=
  ["API call frequency", "maximum allowed", "Thank you for using Alpha Vantage",
   "rate", "limit"]

/-- JS truthiness of the `Information` field (`if (response.data.Information)`). -/
def informationTruthy (information : Option String) : Bool :=
  match information with
  | none => false
  | some s => if s = "" then false else true

/-- Model of `isRateLimitResponse`: the guard `!info || typeof info !== "string"`,
then the disjunction of `includes` checks over the known phrases. -/
def isRateLimitResponse (information : Option String) : Bool :=
  match information with
  | none => false
  | some info =>
      if info = "" then false
      else rateLimitPhrases.any (fun p => strIncludes info p)

structure RawGlobalQuote where
  symbol : String
  price : Rat
  change : Rat
  changePercent : Rat
  volume : Nat
  tradingDayMs : Nat
  deriving DecidableEq

structure AVQuotePayload where
  information : Option String
  globalQuote : Option RawGlobalQuote
  deriving DecidableEq

structure StockQuote where
  symbol : String
  price : Rat
  change : Rat
  changePercent : Rat
  volume : Nat
  timestampMs : Nat
  deriving DecidableEq

/-- The response-handling body of `getQuote`: rate-limit check (returning
null and invoking `beginCooldown`), then `Global Quote` extraction with the
`!quote || !quote['01. symbol']` validity check.  Returns the result and
whether `beginCooldown` was invoked. -/
def processQuotePayload (payload : AVQuotePayload) : Option StockQuote × Bool :=
  if informationTruthy payload.information && isRateLimitResponse payload.information then
    (none, true)
  else
    match payload.globalQuote with
    | none => (none, false)
    | some q =>
        if q.symbol = "" then (none, false)
        else (some ⟨q.symbol, q.price, q.change, q.changePercent, q.volume, q.tradingDayMs⟩,
              false)

/-- Model of `throttle()`: a call arriving at `arrive` begins at
`max arrive nextAvailableTime`. -/
def throttleStart (arrive gate : Nat) : Nat := max arrive gate

structure GateCall where
  startTime : Nat
  doneTime : Nat
  result : Option StockQuote
  gateAfter : Nat
  deriving DecidableEq

/-- One `getQuote` call through the gate: throttle, network for `dur` ms,
then payload processing; a rate-limit response sets the gate to
`doneTime + delay` (`beginCooldown` reads `Date.now()` at that moment),
otherwise the gate is untouched. -/
def getQuoteCall (delay arrive gate dur : Nat) (payload : AVQuotePayload) : GateCall :=
  let start := throttleStart arrive gate
  let done := start + dur
  let rc := processQuotePayload payload
  { startTime := start, doneTime := done, result := rc.1,
    gateAfter := if rc.2 then done + delay else gate }

/-! ### Freshness TTL: useStockData.ts `fetchQuote`

`isQuoteFresh = cachedQuote && Date.now() - cachedQuote.timestamp.getTime()
< QUOTE_TTL_MS`; when fresh, `fetchQuote` returns before any network call,
otherwise it awaits one `alphaVantageService.getQuote(symbol)` call (`net`
is that call's result) and stores a non-null result into `stockQuotes`. -/

def QUOTE_TTL_MS : Nat := 60000

def isQuoteFresh (cache : Option StockQuote) (nowMs ttl : Nat) : Bool :=
  match cache with
  | none => false
  | some q => decide (nowMs - q.timestampMs < ttl)

structure FetchQuoteRun where
  networkCalls : Nat
  cacheAfter : Option StockQuote
  deriving DecidableEq

/-- Model of the `fetchQuote` callback of useStockData.ts: the `enabled` and
`!symbol` early returns, the fresh-cache skip, then one service call whose
null result leaves the cache untouched. -/
def fetchQuote (enabled : Bool) (symbol : String) (cache : Option StockQuote)
    (nowMs ttl : Nat) (net : Option StockQuote) : FetchQuoteRun :=
  if !enabled then ⟨0, cache⟩
  else if symbol = "" then ⟨0, cache⟩
  else if isQuoteFresh cache nowMs ttl then ⟨0, cache⟩
  else
    match net with
    | none => ⟨1, cache⟩
    | some q => ⟨1, some q⟩

/-! ### Batch quotes: alphaVantage.ts `getBatchQuotes`

`getBatchQuotes` loops the symbols in order, awaiting
`fetchQuoteWithRetry(symbol)` for each.  Each attempt first waits until at
least `RATE_LIMIT_DELAY_MS` has passed since `lastRequestTime`, records
`lastRequestTime = Date.now()`, and then awaits `getQuote(symbol, true)` —
which itself awaits `throttle()` first, so the wire call is deferred to
`nextAvailableTime` when a cooldown is active while `lastRequestTime` keeps
the pre-throttle timestamp.  A null result with retries left waits a further
full `RATE_LIMIT_DELAY_MS` and recurses with one retry fewer.  An attempt is
one `getQuoteCall` through the shared gate, so a rate-limited response also
advances the gate mid-batch.  The oracle `payload sym r` is the provider
payload of the attempt made with `r` retries remaining (`r = 3` is the first
attempt), `dur sym r` that attempt's network duration.  The JS result
`Record` is modelled as the association list of `(symbol, result)` pairs in
loop order. -/

/-- Value of `lastRequestTime` recorded for an attempt: wait out the
remainder of the spacing interval since the previous `lastRequestTime`
(the `elapsed < delay` branch of the source), before the throttle runs. -/
def retryStart (delay now lastReq : Nat) : Nat :=
  if now - lastReq < delay then now + (delay - (now - lastReq)) else now

/-- One attempt's wire call as logged: `mark` is the recorded
`lastRequestTime` (pre-throttle), `wireStart` when the HTTP request begins
(post-throttle), `done` when the response is processed. -/
structure AttemptLog where
  sym : String
  mark : Nat
  wireStart : Nat
  done : Nat
  deriving DecidableEq

def attemptLogEntry (dur : String → Nat → Nat) (delay : Nat) (sym : String)
    (r now lastReq gate : Nat) : AttemptLog :=
  ⟨sym, retryStart delay now lastReq,
   throttleStart (retryStart delay now lastReq) gate,
   throttleStart (retryStart delay now lastReq) gate + dur sym r⟩

/-- The gate value after one attempt (`beginCooldown` on a rate-limited
payload, otherwise unchanged). -/
def attemptGateAfter (payload : String → Nat → AVQuotePayload)
    (dur : String → Nat → Nat) (delay : Nat) (sym : String)
    (r now lastReq gate : Nat) : Nat :=
  (getQuoteCall delay (retryStart delay now lastReq) gate (dur sym r)
    (payload sym r)).gateAfter

structure BatchStep where
  result : Option StockQuote
  endTime : Nat
  lastReq : Nat
  gate : Nat
  calls : List AttemptLog
  deriving DecidableEq

def fetchQuoteWithRetry (payload : String → Nat → AVQuotePayload)
    (dur : String → Nat → Nat) (delay : Nat) (sym : String) :
    Nat → Nat → Nat → Nat → BatchStep
  | 0, now, lastReq, gate =>
      let c := getQuoteCall delay (retryStart delay now lastReq) gate (dur sym 0)
        (payload sym 0)
      ⟨c.result, c.doneTime, retryStart delay now lastReq, c.gateAfter,
       [attemptLogEntry dur delay sym 0 now lastReq gate]⟩
  | r + 1, now, lastReq, gate =>
      let c := getQuoteCall delay (retryStart delay now lastReq) gate (dur sym (r + 1))
        (payload sym (r + 1))
      match c.result with
      | some q =>
          ⟨some q, c.doneTime, retryStart delay now lastReq, c.gateAfter,
           [attemptLogEntry dur delay sym (r + 1) now lastReq gate]⟩
      | none =>
          let rest := fetchQuoteWithRetry payload dur delay sym r (c.doneTime + delay)
            (retryStart delay now lastReq) c.gateAfter
          ⟨rest.result, rest.endTime, rest.lastReq, rest.gate,
           attemptLogEntry dur delay sym (r + 1) now lastReq gate :: rest.calls⟩

structure BatchRun where
  results : List (String × Option StockQuote)
  endTime : Nat
  lastReq : Nat
  gate : Nat
  calls : List AttemptLog
  deriving DecidableEq

def getBatchQuotes (payload : String → Nat → AVQuotePayload)
    (dur : String → Nat → Nat) (delay : Nat) :
    List String → Nat → Nat → Nat → BatchRun
  | [], now, lastReq, gate => ⟨[], now, lastReq, gate, []⟩
  | sym :: rest, now, lastReq, gate =>
      let b := fetchQuoteWithRetry payload dur delay sym 3 now lastReq gate
      let brs := getBatchQuotes payload dur delay rest b.endTime b.lastReq b.gate
      ⟨(sym, b.result) :: brs.results, brs.endTime, brs.lastReq, brs.gate,
       b.calls ++ brs.calls⟩

/-- The original claim's spacing property: consecutive wire calls begin at
least the spacing interval apart. -/
def wellSpacedWire (delay : Nat) (calls : List AttemptLog) : Prop :=
  List.Chain' (fun a b => a.wireStart + delay ≤ b.wireStart) calls

/-- The spacing the bookkeeping enforces: consecutive recorded
`lastRequestTime` marks are at least the spacing interval apart. -/
def wellSpacedMark (delay : Nat) (calls : List AttemptLog) : Prop :=
  List.Chain' (fun a b => a.mark + delay ≤ b.mark) calls

/-- Strict sequentiality: each wire call begins only after the previous
one's response was processed. -/
def sequentialCalls (calls : List AttemptLog) : Prop :=
  List.Chain' (fun a b => a.done ≤ b.wireStart) calls

/-- Payload oracle for the C6 counterexample run: symbol A's first three
attempts are invalid payloads (null, no cooldown), its final attempt is a
rate-limited payload; B and C answer valid quotes. -/
def cexBatchPayload : String → Nat → AVQuotePayload := fun s r =>
  if s = "A" then
    (if r = 0 then ⟨some "rate limit", none⟩ else ⟨none, none⟩)
  else ⟨none, some ⟨s, 10, 1, 1, 5, 0⟩⟩

/-- Duration oracle for the C6 counterexample run. -/
def cexBatchDur : String → Nat → Nat := fun s r =>
  if s = "A" then (if r = 0 then 1000 else 100)
  else if s = "B" then 500 else 300

/-! ### Index Adapter: useMarketIndices.ts `fetchIndices`

The loop snapshots `now` once per cycle, skips a symbol whose
`rateLimitedUntil` entry is truthy and `> now`, pushes successes, and on an
HTTP 429 sets that symbol's cooldown to `Date.now() + RATE_LIMIT_COOLDOWN_MS`
(`failAt sym` models that `Date.now()`); other errors change nothing.  If no
symbol succeeded the previous snapshot is returned and `setMarketIndices` is
not called (`stored = none`). -/

def RATE_LIMIT_COOLDOWN_MS : Nat := 30000

structure MarketIndex where
  name : String
  symbol : String
  value : Rat
  change : Rat
  changePercent : Rat
  deriving DecidableEq

inductive FinnhubOutcome where
  | ok (value change changePercent : Rat)
  | httpError (status : Nat)
  deriving DecidableEq

def INDEX_SYMBOLS : List (String × String) :=
  [("S&P 500", "SPY"), ("Dow Jones", "DIA"), ("NASDAQ", "QQQ")]

/-- Writing one entry of the `rateLimitedUntil` record (0 = absent). -/
def updateCooldown (cd : String → Nat) (sym : String) (t : Nat) : String → Nat :=
  fun s => if s = sym then t else cd s

structure IndicesCycle where
  updated : List MarketIndex
  cooldowns : String → Nat
  calls : List String

def fetchIndicesLoop (cooldownMs : Nat) (net : String → FinnhubOutcome)
    (failAt : String → Nat) (now : Nat) :
    List (String × String) → (String → Nat) → IndicesCycle
  | [], cd => ⟨[], cd, []⟩
  | (idxName, sym) :: rest, cd =>
      if 0 < cd sym ∧ now < cd sym then
        fetchIndicesLoop cooldownMs net failAt now rest cd
      else
        match net sym with
        | .ok v c p =>
            let r := fetchIndicesLoop cooldownMs net failAt now rest cd
            ⟨⟨idxName, sym, v, c, p⟩ :: r.updated, r.cooldowns, sym :: r.calls⟩
        | .httpError status =>
            let cd₁ := if status = 429 then updateCooldown cd sym (failAt sym + cooldownMs)
                       else cd
            let r := fetchIndicesLoop cooldownMs net failAt now rest cd₁
            ⟨r.updated, r.cooldowns, sym :: r.calls⟩

structure IndicesResult where
  returned : List MarketIndex
  cooldowns : String → Nat
  calls : List String
  stored : Option (List MarketIndex)

def fetchIndices (enabled : Bool) (cooldownMs : Nat) (net : String → FinnhubOutcome)
    (failAt : String → Nat) (now : Nat) (prev : List MarketIndex)
    (cd : String → Nat) : IndicesResult :=
  if !enabled then ⟨prev, cd, [], none⟩
  else
    let r := fetchIndicesLoop cooldownMs net failAt now INDEX_SYMBOLS cd
    if r.updated = [] then ⟨prev, r.cooldowns, r.calls, none⟩
    else ⟨r.updated, r.cooldowns, r.calls, some r.updated⟩

/-! ### Portfolio merge: usePortfolioData.ts `fetchPortfolio`

Each holding is merged with the `getBatchQuotes` entry for its symbol:
`hasQuote = quote?.price != null`, derived fields recomputed when a quote is
present and kept otherwise; `gainLossPercent` additionally requires
`avgCost !== 0`. -/

structure PortfolioHolding where
  symbol : String
  shares : Rat
  avgCost : Rat
  currentPrice : Rat
  totalValue : Rat
  gainLoss : Rat
  gainLossPercent : Rat
  hasQuote : Bool
  deriving DecidableEq

def updateHolding (quote : Option StockQuote) (h : PortfolioHolding) : PortfolioHolding :=
  let hasQuote := quote.isSome
  let currentPrice := match quote with
                      | some q => q.price
                      | none => h.currentPrice
  let totalValue := if hasQuote then currentPrice * h.shares else h.totalValue
  let gainLoss := if hasQuote then (currentPrice - h.avgCost) * h.shares else h.gainLoss
  let gainLossPercent := if hasQuote ∧ h.avgCost ≠ 0
                         then (currentPrice - h.avgCost) / h.avgCost * 100
                         else h.gainLossPercent
  { symbol := h.symbol, shares := h.shares, avgCost := h.avgCost,
    currentPrice := currentPrice, totalValue := totalValue, gainLoss := gainLoss,
    gainLossPercent := gainLossPercent, hasQuote := hasQuote }

def fetchPortfolio (quotes : String → Option StockQuote)
    (holdings : List PortfolioHolding) : List PortfolioHolding :=
  holdings.map (fun h => updateHolding (quotes h.symbol) h)

/-! ### Theorems -/

theorem pollInv_init : PollInv pollInit := by
  simp [PollInv, pollInit]

theorem pollInv_step (enabled : Bool) (s : PollState) (e : PollEvent)
    (h : PollInv s) : PollInv (pollStep enabled s e) := by
  cases e <;> simp only [pollStep]
  · by_cases hf : s.isFetching
    · simp [hf, h]
    · cases enabled <;> simp_all [PollInv]
  · by_cases hz : s.inFlight = 0
    · simpa [hz] using h
    · simp only [hz, if_neg]
      unfold PollInv at h ⊢
      by_cases hf : s.isFetching <;> simp_all

theorem pollInv_run (enabled : Bool) (es : List PollEvent) :
    PollInv (pollRun enabled es) := by
  unfold pollRun
  have h : ∀ s : PollState, PollInv s → PollInv (es.foldl (pollStep enabled) s) := by
    induction es with
    | nil => intro s hs; simpa using hs
    | cons e es ih =>
        intro s hs
        exact ih _ (pollInv_step enabled s e hs)
  exact h pollInit pollInv_init

/-- C1: the Poller never has more than one `fetchOperation` invocation in
flight, and a tick or `refetch()` that fires while one is pending leaves the
state unchanged — in particular it starts no new invocation and queues
nothing. -/
theorem c1_poller_single_flight (enabled : Bool) (es : List PollEvent) :
    (pollRun enabled es).inFlight ≤ 1 ∧
    ((pollRun enabled es).isFetching = true →
      pollStep enabled (pollRun enabled es) .tick = pollRun enabled es) := by
  have h := pollInv_run enabled es
  unfold PollInv at h
  constructor
  · rw [h]; by_cases hf : (pollRun enabled es).isFetching <;> simp [hf]
  · intro hf
    simp [pollStep, hf]

/-- Witness for C1 at a concrete trace: after one tick a fetch is pending,
and a second tick is a no-op. -/
theorem c1_poller_single_flight_witness :
    (pollRun true [PollEvent.tick]).inFlight ≤ 1 ∧
    ((pollRun true [PollEvent.tick]).isFetching = true →
      pollStep true (pollRun true [PollEvent.tick]) .tick = pollRun true [PollEvent.tick]) :=
  c1_poller_single_flight true [PollEvent.tick]

theorem lockInv_init : LockInv lockInit := by
  left; exact ⟨rfl, rfl⟩

theorem lockInv_step (s : LockState) (e : LockEvent) (h : LockInv s)
    (he : isSkipEvent e = false) : LockInv (lockStep s e) := by
  cases e with
  | locked r =>
      rcases h with ⟨hs, ho⟩ | ⟨i, r₀, hs, ho⟩
      · right
        exact ⟨s.nextId, r, by simp [lockStep, lockCall, hs, ho]⟩
      · right
        exact ⟨i, r₀, by simp [lockStep, lockCall, hs, ho]⟩
  | skip r => simp [isSkipEvent] at he
  | finish i =>
      rcases h with ⟨hs, ho⟩ | ⟨j, r₀, hs, ho⟩
      · left
        constructor <;> simp [lockStep, finishCall, hs, ho]
      · by_cases hij : i = j
        · left
          subst hij
          constructor <;> simp [lockStep, finishCall, hs, ho]
        · right
          refine ⟨j, r₀, ?_, ?_⟩ <;> simp [lockStep, finishCall, hs, ho] <;> omega

theorem lockInv_run (es : List LockEvent) (h : LockedOnly es) :
    LockInv (lockRun es) := by
  unfold lockRun
  suffices key : ∀ l : List LockEvent, LockedOnly l →
      ∀ s : LockState, LockInv s → LockInv (l.foldl lockStep s) from
    key es h lockInit lockInv_init
  intro l
  induction l with
  | nil => intro _ s hs; simpa using hs
  | cons e es ih =>
      intro hl s hs
      exact ih (fun x hx => hl x (List.mem_cons_of_mem e hx)) _
        (lockInv_step s e hs (hl e (List.mem_cons_self e es)))

/-- C2 counterexample: `getBatchQuotes` fetches with `skipLock = true`, which
bypasses the single-flight slot.  With a locked `getTimeSeries` call still in
flight, a batch `getQuote` issues its own request: two outbound calls to the
provider are in flight at once, and the second caller did not await the first
caller's result. -/
theorem c2_single_flight_counterexample :
    (lockRun [LockEvent.locked (AVReq.seriesReq "IBM" "daily"),
              LockEvent.skip (AVReq.quoteReq "AAPL")]).outstanding =
      [(1, AVReq.quoteReq "AAPL"), (0, AVReq.seriesReq "IBM" "daily")] := rfl

/-- C2 amended: mutual exclusion holds for the calls that go through the
lock — plain `getQuote` and `getTimeSeries`.  On any trace without
`skipLock = true` calls, at most one outbound request is in flight, and a
locked caller arriving while one is in flight issues no new request and
awaits the same in-flight promise.  `getBatchQuotes` bypasses the slot with
`getQuote(symbol, true)`, so its calls are outside this guarantee. -/
theorem c2_single_flight_amended (es : List LockEvent) (h : LockedOnly es) :
    (lockRun es).outstanding.length ≤ 1 ∧
    ∀ i r, (lockRun es).slot = some i → lockCall (lockRun es) r = (lockRun es, i) := by
  constructor
  · rcases lockInv_run es h with ⟨_, ho⟩ | ⟨i, r₀, _, ho⟩ <;> simp [ho]
  · intro i r hi
    simp [lockCall, hi]

/-- Witness for C2 amended at a concrete locked-only trace. -/
theorem c2_single_flight_amended_witness :
    LockedOnly [LockEvent.locked (AVReq.quoteReq "MSFT")] ∧
    ((lockRun [LockEvent.locked (AVReq.quoteReq "MSFT")]).outstanding.length ≤ 1 ∧
     ∀ i r, (lockRun [LockEvent.locked (AVReq.quoteReq "MSFT")]).slot = some i →
       lockCall (lockRun [LockEvent.locked (AVReq.quoteReq "MSFT")]) r =
         (lockRun [LockEvent.locked (AVReq.quoteReq "MSFT")], i)) :=
  ⟨by unfold LockedOnly; decide,
   c2_single_flight_amended [LockEvent.locked (AVReq.quoteReq "MSFT")]
     (by unfold LockedOnly; decide)⟩

/-- C10: the single-flight slot is keyed by nothing — neither operation nor
symbol.  A `getQuote` call (without `skipLock`) arriving while any call is in
flight (a `getTimeSeries`, or a `getQuote` for a different symbol) issues no
network request for its own arguments and resolves to the in-flight promise
of that unrelated call. -/
theorem c10_slot_unkeyed (s : LockState) (i : Nat) (sym : String)
    (h : s.slot = some i) : lockCall s (AVReq.quoteReq sym) = (s, i) := by
  simp [lockCall, h]

/-- Witness for C10: with a `getTimeSeries("IBM", daily)` call in flight as
promise 0, a `getQuote("AAPL")` caller changes nothing and receives
promise 0 — the time-series result. -/
theorem c10_slot_unkeyed_witness :
    (lockStep lockInit (LockEvent.locked (AVReq.seriesReq "IBM" "daily"))).slot = some 0 ∧
    lockCall (lockStep lockInit (LockEvent.locked (AVReq.seriesReq "IBM" "daily")))
        (AVReq.quoteReq "AAPL") =
      (lockStep lockInit (LockEvent.locked (AVReq.seriesReq "IBM" "daily")), 0) :=
  ⟨rfl, c10_slot_unkeyed _ 0 "AAPL" rfl⟩

theorem rateLimitPhrases_ne_empty : ∀ p ∈ rateLimitPhrases, p ≠ "" := by decide

theorem strIncludes_empty_left (p : String) (hp : p ≠ "") : strIncludes "" p = false := by
  unfold strIncludes listContainsSub
  cases hd : p.data with
  | nil => exact absurd (String.ext (by simp [hd])) hp
  | cons c t => simp [hd, List.isEmpty]

theorem matched_info_ne_empty (info : String)
    (hmatch : ∃ p ∈ rateLimitPhrases, strIncludes info p = true) : info ≠ "" := by
  rintro rfl
  obtain ⟨p, hp, hinc⟩ := hmatch
  rw [strIncludes_empty_left p (rateLimitPhrases_ne_empty p hp)] at hinc
  exact Bool.false_ne_true hinc

theorem processQuotePayload_rate_limited (payload : AVQuotePayload) (info : String)
    (hinfo : payload.information = some info)
    (hmatch : ∃ p ∈ rateLimitPhrases, strIncludes info p = true) :
    processQuotePayload payload = (none, true) := by
  have hne : info ≠ "" := matched_info_ne_empty info hmatch
  have htr : informationTruthy payload.information = true := by
    simp [informationTruthy, hinfo, hne]
  have hrl : isRateLimitResponse payload.information = true := by
    obtain ⟨p, hp, hinc⟩ := hmatch
    simp only [isRateLimitResponse, hinfo, if_neg hne, List.any_eq_true]
    exact ⟨p, hp, hinc⟩
  simp [processQuotePayload, htr, hrl]

/-- C4: a Provider A payload whose `Information` field contains one of the
known rate-limit phrases (case-sensitive substring) makes `getQuote` return
null (no `StockQuote`), invokes `beginCooldown` — setting the gate to the
processing time plus the cooldown duration — and any subsequent call through
the same gate (every operation throttles first) begins no earlier than that
cooldown deadline. -/
theorem c4_rate_limit_cooldown (delay arrive gate dur : Nat) (payload : AVQuotePayload)
    (info : String) (hinfo : payload.information = some info)
    (hmatch : ∃ p ∈ rateLimitPhrases, strIncludes info p = true) :
    (getQuoteCall delay arrive gate dur payload).result = none ∧
    (getQuoteCall delay arrive gate dur payload).gateAfter =
      (getQuoteCall delay arrive gate dur payload).doneTime + delay ∧
    ∀ arrive₂ : Nat,
      (getQuoteCall delay arrive gate dur payload).doneTime + delay ≤
        throttleStart arrive₂ (getQuoteCall delay arrive gate dur payload).gateAfter := by
  have hproc := processQuotePayload_rate_limited payload info hinfo hmatch
  refine ⟨by simp [getQuoteCall, hproc], by simp [getQuoteCall, hproc], ?_⟩
  intro arrive₂
  simp only [getQuoteCall, hproc, throttleStart]
  exact le_max_right _ _

/-- Witness for C4: a payload carrying the standard Alpha Vantage frequency
message is classified rate-limited and gates the next call. -/
theorem c4_rate_limit_cooldown_witness :
    (getQuoteCall 12000 0 0 100
        ⟨some "Thank you for using Alpha Vantage! Our standard API call frequency is 25 requests per day.",
         none⟩).result = none ∧
    (getQuoteCall 12000 0 0 100
        ⟨some "Thank you for using Alpha Vantage! Our standard API call frequency is 25 requests per day.",
         none⟩).gateAfter =
      (getQuoteCall 12000 0 0 100
        ⟨some "Thank you for using Alpha Vantage! Our standard API call frequency is 25 requests per day.",
         none⟩).doneTime + 12000 ∧
    ∀ arrive₂ : Nat,
      (getQuoteCall 12000 0 0 100
        ⟨some "Thank you for using Alpha Vantage! Our standard API call frequency is 25 requests per day.",
         none⟩).doneTime + 12000 ≤
        throttleStart arrive₂
          (getQuoteCall 12000 0 0 100
            ⟨some "Thank you for using Alpha Vantage! Our standard API call frequency is 25 requests per day.",
             none⟩).gateAfter :=
  c4_rate_limit_cooldown 12000 0 0 100 _
    "Thank you for using Alpha Vantage! Our standard API call frequency is 25 requests per day."
    rfl (by decide)

/-- C5 counterexample: the gate enforces no minimum spacing between ordinary
consecutive calls.  With `RATE_LIMIT_DELAY_MS = 12000` and no rate-limit
signal, a first call arriving at t=1000 begins at t=1000 and leaves the gate
at 0, so a second call arriving at t=1005 begins at t=1005 — only 5 ms after
the first, far below the configured interval. -/
theorem c5_min_spacing_counterexample :
    (getQuoteCall 12000 1000 0 5 ⟨none, some ⟨"AAPL", 150, 1, 1, 100, 0⟩⟩).startTime = 1000 ∧
    (getQuoteCall 12000 1000 0 5 ⟨none, some ⟨"AAPL", 150, 1, 1, 100, 0⟩⟩).gateAfter = 0 ∧
    (getQuoteCall 12000 1005 0 7 ⟨none, some ⟨"AAPL", 150, 1, 1, 100, 0⟩⟩).startTime = 1005 := by
  refine ⟨by decide, by decide, by decide⟩

/-- C5 amended: the gate delays calls only through `nextAvailableTime`.
Every call begins no earlier than the gate; a response that does not trigger
the rate-limit cooldown leaves the gate unchanged (so consecutive ordinary
calls may begin arbitrarily close together); only a rate-limit response
advances it, and then any subsequent call waits out the full cooldown.
Minimum spacing between ordinary calls is enforced solely inside
`getBatchQuotes`, not by the gate. -/
theorem c5_min_spacing_amended (delay arrive gate dur : Nat) (payload : AVQuotePayload) :
    gate ≤ (getQuoteCall delay arrive gate dur payload).startTime ∧
    ((processQuotePayload payload).2 = false →
      (getQuoteCall delay arrive gate dur payload).gateAfter = gate) ∧
    ((processQuotePayload payload).2 = true →
      ∀ arrive₂ : Nat,
        (getQuoteCall delay arrive gate dur payload).doneTime + delay ≤
          throttleStart arrive₂ (getQuoteCall delay arrive gate dur payload).gateAfter) := by
  refine ⟨?_, ?_, ?_⟩
  · simp only [getQuoteCall, throttleStart]
    exact le_max_right _ _
  · intro h; simp [getQuoteCall, h]
  · intro h arrive₂
    simp only [getQuoteCall, h, if_pos, throttleStart]
    exact le_max_right _ _

/-- Witness for C5 amended at a rate-limited payload and concrete times. -/
theorem c5_min_spacing_amended_witness :
    0 ≤ (getQuoteCall 12000 3000 0 10 ⟨some "rate limit", none⟩).startTime ∧
    ((processQuotePayload ⟨some "rate limit", none⟩).2 = false →
      (getQuoteCall 12000 3000 0 10 ⟨some "rate limit", none⟩).gateAfter = 0) ∧
    ((processQuotePayload ⟨some "rate limit", none⟩).2 = true →
      ∀ arrive₂ : Nat,
        (getQuoteCall 12000 3000 0 10 ⟨some "rate limit", none⟩).doneTime + 12000 ≤
          throttleStart arrive₂
            (getQuoteCall 12000 3000 0 10 ⟨some "rate limit", none⟩).gateAfter) :=
  c5_min_spacing_amended 12000 3000 0 10 ⟨some "rate limit", none⟩

/-- C3: freshness policy of `fetchQuote`.  With a cached quote whose age is
strictly below the TTL, no network call is issued and the cache entry is
returned unchanged; with a cached quote whose age exceeds the TTL, exactly
one network call is issued. -/
theorem c3_fetchQuote_ttl (symbol : String) (hs : symbol ≠ "")
    (q : StockQuote) (nowMs ttl : Nat) (net : Option StockQuote)
    (hpast : q.timestampMs ≤ nowMs) :
    (nowMs - q.timestampMs < ttl →
      fetchQuote true symbol (some q) nowMs ttl net = ⟨0, some q⟩) ∧
    (ttl < nowMs - q.timestampMs →
      (fetchQuote true symbol (some q) nowMs ttl net).networkCalls = 1) := by
  constructor
  · intro h
    simp [fetchQuote, hs, isQuoteFresh, h]
  · intro h
    have hnf : isQuoteFresh (some q) nowMs ttl = false := by
      simp only [isQuoteFresh, decide_eq_false_iff_not]
      omega
    cases net <;> simp [fetchQuote, hs, hnf]

/-- Witness for C3: a cached quote aged TTL − 1 ms is served from cache. -/
theorem c3_fetchQuote_ttl_witness :
    ("AAPL" : String) ≠ "" ∧
    (⟨"AAPL", 150, 1, 1, 100, 0⟩ : StockQuote).timestampMs ≤ 59999 ∧
    ((59999 - (⟨"AAPL", 150, 1, 1, 100, 0⟩ : StockQuote).timestampMs < 60000 →
       fetchQuote true "AAPL" (some ⟨"AAPL", 150, 1, 1, 100, 0⟩) 59999 60000 none =
         ⟨0, some ⟨"AAPL", 150, 1, 1, 100, 0⟩⟩) ∧
     (60000 < 59999 - (⟨"AAPL", 150, 1, 1, 100, 0⟩ : StockQuote).timestampMs →
       (fetchQuote true "AAPL" (some ⟨"AAPL", 150, 1, 1, 100, 0⟩) 59999 60000
           none).networkCalls = 1)) :=
  ⟨by decide, by decide,
   c3_fetchQuote_ttl "AAPL" (by decide) ⟨"AAPL", 150, 1, 1, 100, 0⟩ 59999 60000 none
     (by decide)⟩

/-- C9 counterexample: a holding that already had a successful quote
(`hasQuote = true`, derived fields populated) receives a null batch entry;
the merge forces `hasQuote` to `false` rather than leaving it unchanged. -/
theorem c9_null_entry_counterexample :
    (⟨"IBM", 100, 250, 260, 26000, 1000, 4, true⟩ : PortfolioHolding).hasQuote = true ∧
    (updateHolding none ⟨"IBM", 100, 250, 260, 26000, 1000, 4, true⟩).hasQuote = false :=
  ⟨rfl, rfl⟩

/-- C9 amended: for a holding whose batch entry is null, the merge keeps
`currentPrice`, `totalValue`, `gainLoss` and `gainLossPercent` at their prior
values, and sets `hasQuote` to `false` unconditionally — regardless of
whether any earlier quote succeeded. -/
theorem c9_null_entry_amended (quotes : String → Option StockQuote)
    (h : PortfolioHolding) (hnull : quotes h.symbol = none) :
    updateHolding (quotes h.symbol) h =
      ⟨h.symbol, h.shares, h.avgCost, h.currentPrice, h.totalValue, h.gainLoss,
       h.gainLossPercent, false⟩ := by
  rw [hnull]
  rfl

/-- Witness for C9 amended at a concrete holding and an all-null batch. -/
theorem c9_null_entry_amended_witness :
    updateHolding ((fun _ => none : String → Option StockQuote) "IBM")
        ⟨"IBM", 100, 250, 260, 26000, 1000, 4, true⟩ =
      ⟨"IBM", 100, 250, 260, 26000, 1000, 4, false⟩ :=
  c9_null_entry_amended (fun _ => none) ⟨"IBM", 100, 250, 260, 26000, 1000, 4, true⟩ rfl

theorem loop_skips_cooled (cooldownMs : Nat) (net : String → FinnhubOutcome)
    (failAt : String → Nat) (now : Nat) (sym : String) :
    ∀ (idxList : List (String × String)) (cd : String → Nat),
      0 < cd sym → now < cd sym →
      sym ∉ (fetchIndicesLoop cooldownMs net failAt now idxList cd).calls := by
  intro idxList
  induction idxList with
  | nil =>
      intro cd _ _
      simp [fetchIndicesLoop]
  | cons p rest ih =>
      intro cd h0 hn
      obtain ⟨idxName, s⟩ := p
      by_cases hskip : 0 < cd s ∧ now < cd s
      · simpa [fetchIndicesLoop, hskip] using ih cd h0 hn
      · have hs : sym ≠ s := by
          rintro rfl
          exact hskip ⟨h0, hn⟩
        cases hnet : net s with
        | ok v c pp =>
            simp only [fetchIndicesLoop, if_neg hskip, hnet, List.mem_cons, not_or]
            exact ⟨hs, ih cd h0 hn⟩
        | httpError status =>
            simp only [fetchIndicesLoop, if_neg hskip, hnet, List.mem_cons, not_or]
            refine ⟨hs, ?_⟩
            by_cases h429 : status = 429
            · have hcd : updateCooldown cd s (failAt s + cooldownMs) sym = cd sym := by
                simp [updateCooldown, hs]
              simp only [h429, if_pos]
              exact ih _ (by rw [hcd]; exact h0) (by rw [hcd]; exact hn)
            · simp only [if_neg h429]
              exact ih cd h0 hn

theorem loop_all_fail (cooldownMs : Nat) (net : String → FinnhubOutcome)
    (failAt : String → Nat) (now : Nat) :
    ∀ (idxList : List (String × String)) (cd : String → Nat),
      (∀ p ∈ idxList, (∃ st, net p.2 = FinnhubOutcome.httpError st) ∨
        (0 < cd p.2 ∧ now < cd p.2)) →
      (fetchIndicesLoop cooldownMs net failAt now idxList cd).updated = [] := by
  intro idxList
  induction idxList with
  | nil => intro cd _; rfl
  | cons p rest ih =>
      intro cd hall
      obtain ⟨idxName, s⟩ := p
      have htail : ∀ q ∈ rest, (∃ st, net q.2 = FinnhubOutcome.httpError st) ∨
          (0 < cd q.2 ∧ now < cd q.2) :=
        fun q hq => hall q (List.mem_cons_of_mem _ hq)
      by_cases hskip : 0 < cd s ∧ now < cd s
      · simpa [fetchIndicesLoop, hskip] using ih cd htail
      · rcases hall (idxName, s) (List.mem_cons_self _ _) with ⟨st, hst⟩ | hcds
        · simp only [fetchIndicesLoop, if_neg hskip, hst]
          apply ih
          intro q hq
          rcases htail q hq with herr | ⟨hq0, hqn⟩
          · exact Or.inl herr
          · by_cases hqs : q.2 = s
            · exact Or.inl ⟨st, by rw [hqs, hst]⟩
            · right
              by_cases h429 : st = 429 <;>
                simp [h429, updateCooldown, hqs, hq0, hqn]
        · exact absurd hcds hskip

theorem fetchIndices_calls_eq (cooldownMs : Nat) (net : String → FinnhubOutcome)
    (failAt : String → Nat) (now : Nat) (prev : List MarketIndex) (cd : String → Nat) :
    (fetchIndices true cooldownMs net failAt now prev cd).calls =
      (fetchIndicesLoop cooldownMs net failAt now INDEX_SYMBOLS cd).calls := by
  by_cases hemp : (fetchIndicesLoop cooldownMs net failAt now INDEX_SYMBOLS cd).updated = []
  · simp [fetchIndices, hemp]
  · simp [fetchIndices, hemp]

/-- C7: one cycle with no active cooldowns in which SPY answers HTTP 429 and
DIA/QQQ succeed returns exactly the DIA and QQQ entries (SPY absent), stores
them, sets SPY's cooldown to its failure time plus the cooldown duration,
and a repeat cycle starting before that deadline issues no call for SPY. -/
theorem c7_partial_success (cooldownMs : Nat) (net : String → FinnhubOutcome)
    (failAt : String → Nat) (now : Nat) (prev : List MarketIndex) (cd : String → Nat)
    (v₁ c₁ p₁ v₂ c₂ p₂ : Rat)
    (hS : net "SPY" = FinnhubOutcome.httpError 429)
    (hD : net "DIA" = FinnhubOutcome.ok v₁ c₁ p₁)
    (hQ : net "QQQ" = FinnhubOutcome.ok v₂ c₂ p₂)
    (hcdS : ¬(0 < cd "SPY" ∧ now < cd "SPY"))
    (hcdD : ¬(0 < cd "DIA" ∧ now < cd "DIA"))
    (hcdQ : ¬(0 < cd "QQQ" ∧ now < cd "QQQ")) :
    (fetchIndices true cooldownMs net failAt now prev cd).returned =
      [⟨"Dow Jones", "DIA", v₁, c₁, p₁⟩, ⟨"NASDAQ", "QQQ", v₂, c₂, p₂⟩] ∧
    (fetchIndices true cooldownMs net failAt now prev cd).stored =
      some [⟨"Dow Jones", "DIA", v₁, c₁, p₁⟩, ⟨"NASDAQ", "QQQ", v₂, c₂, p₂⟩] ∧
    (fetchIndices true cooldownMs net failAt now prev cd).cooldowns "SPY" =
      failAt "SPY" + cooldownMs ∧
    ∀ (net₂ : String → FinnhubOutcome) (failAt₂ : String → Nat) (now₂ : Nat)
      (prev₂ : List MarketIndex),
      now₂ < failAt "SPY" + cooldownMs →
      "SPY" ∉ (fetchIndices true cooldownMs net₂ failAt₂ now₂ prev₂
        (fetchIndices true cooldownMs net failAt now prev cd).cooldowns).calls := by
  have hcd₁D : updateCooldown cd "SPY" (failAt "SPY" + cooldownMs) "DIA" = cd "DIA" := by
    simp [updateCooldown]
  have hcd₁Q : updateCooldown cd "SPY" (failAt "SPY" + cooldownMs) "QQQ" = cd "QQQ" := by
    simp [updateCooldown]
  have hloopU :
      (fetchIndicesLoop cooldownMs net failAt now INDEX_SYMBOLS cd).updated =
        [⟨"Dow Jones", "DIA", v₁, c₁, p₁⟩, ⟨"NASDAQ", "QQQ", v₂, c₂, p₂⟩] := by
    simp [fetchIndicesLoop, INDEX_SYMBOLS, hS, hD, hQ, hcdS, hcd₁D, hcdD, hcd₁Q, hcdQ]
  have hloopC :
      (fetchIndicesLoop cooldownMs net failAt now INDEX_SYMBOLS cd).cooldowns "SPY" =
        failAt "SPY" + cooldownMs := by
    simp [fetchIndicesLoop, INDEX_SYMBOLS, hS, hD, hQ, hcdS, hcd₁D, hcdD, hcd₁Q, hcdQ,
      updateCooldown]
  have hwrap :
      fetchIndices true cooldownMs net failAt now prev cd =
        ⟨(fetchIndicesLoop cooldownMs net failAt now INDEX_SYMBOLS cd).updated,
         (fetchIndicesLoop cooldownMs net failAt now INDEX_SYMBOLS cd).cooldowns,
         (fetchIndicesLoop cooldownMs net failAt now INDEX_SYMBOLS cd).calls,
         some (fetchIndicesLoop cooldownMs net failAt now INDEX_SYMBOLS cd).updated⟩ := by
    have hne : (fetchIndicesLoop cooldownMs net failAt now INDEX_SYMBOLS cd).updated ≠ [] := by
      rw [hloopU]
      simp
    simp only [fetchIndices, Bool.not_true]
    rw [if_neg hne]
    simp
  refine ⟨by rw [hwrap]; exact hloopU, by rw [hwrap]; simpa using hloopU, by
    rw [hwrap]; exact hloopC, ?_⟩
  intro net₂ failAt₂ now₂ prev₂ hlt
  rw [fetchIndices_calls_eq]
  apply loop_skips_cooled
  · rw [hwrap]
    simp only
    rw [hloopC]
    omega
  · rw [hwrap]
    simp only
    rw [hloopC]
    exact hlt

/-- Witness for C7 at a concrete cycle. -/
theorem c7_partial_success_witness :
    (fetchIndices true 30000
        (fun s => if s = "SPY" then FinnhubOutcome.httpError 429
                  else if s = "DIA" then FinnhubOutcome.ok 1 2 3
                  else FinnhubOutcome.ok 4 5 6)
        (fun _ => 100) 50 [] (fun _ => 0)).returned =
      [⟨"Dow Jones", "DIA", 1, 2, 3⟩, ⟨"NASDAQ", "QQQ", 4, 5, 6⟩] ∧
    (fetchIndices true 30000
        (fun s => if s = "SPY" then FinnhubOutcome.httpError 429
                  else if s = "DIA" then FinnhubOutcome.ok 1 2 3
                  else FinnhubOutcome.ok 4 5 6)
        (fun _ => 100) 50 [] (fun _ => 0)).stored =
      some [⟨"Dow Jones", "DIA", 1, 2, 3⟩, ⟨"NASDAQ", "QQQ", 4, 5, 6⟩] ∧
    (fetchIndices true 30000
        (fun s => if s = "SPY" then FinnhubOutcome.httpError 429
                  else if s = "DIA" then FinnhubOutcome.ok 1 2 3
                  else FinnhubOutcome.ok 4 5 6)
        (fun _ => 100) 50 [] (fun _ => 0)).cooldowns "SPY" =
      (fun _ => (100 : Nat)) "SPY" + 30000 ∧
    ∀ (net₂ : String → FinnhubOutcome) (failAt₂ : String → Nat) (now₂ : Nat)
      (prev₂ : List MarketIndex),
      now₂ < (fun _ => (100 : Nat)) "SPY" + 30000 →
      "SPY" ∉ (fetchIndices true 30000 net₂ failAt₂ now₂ prev₂
        (fetchIndices true 30000
          (fun s => if s = "SPY" then FinnhubOutcome.httpError 429
                    else if s = "DIA" then FinnhubOutcome.ok 1 2 3
                    else FinnhubOutcome.ok 4 5 6)
          (fun _ => 100) 50 [] (fun _ => 0)).cooldowns).calls :=
  c7_partial_success 30000 _ (fun _ => 100) 50 [] (fun _ => 0) 1 2 3 4 5 6
    rfl rfl rfl (by decide) (by decide) (by decide)

/-- C8: in a cycle where every index symbol either fails or is skipped by an
active cooldown, `fetchIndices` returns the previous snapshot unchanged and
does not write the stored state (`setMarketIndices` is not called). -/
theorem c8_total_failure (cooldownMs : Nat) (net : String → FinnhubOutcome)
    (failAt : String → Nat) (now : Nat) (prev : List MarketIndex) (cd : String → Nat)
    (hall : ∀ p ∈ INDEX_SYMBOLS, (∃ st, net p.2 = FinnhubOutcome.httpError st) ∨
      (0 < cd p.2 ∧ now < cd p.2)) :
    (fetchIndices true cooldownMs net failAt now prev cd).returned = prev ∧
    (fetchIndices true cooldownMs net failAt now prev cd).stored = none := by
  have h := loop_all_fail cooldownMs net failAt now INDEX_SYMBOLS cd hall
  constructor <;> simp [fetchIndices, h]

/-- Witness for C8: every symbol answers HTTP 500; the previous snapshot
survives untouched. -/
theorem c8_total_failure_witness :
    (fetchIndices true 30000 (fun _ => FinnhubOutcome.httpError 500) (fun _ => 0) 0
        [⟨"S&P 500", "SPY", 1, 2, 3⟩] (fun _ => 0)).returned =
      [⟨"S&P 500", "SPY", 1, 2, 3⟩] ∧
    (fetchIndices true 30000 (fun _ => FinnhubOutcome.httpError 500) (fun _ => 0) 0
        [⟨"S&P 500", "SPY", 1, 2, 3⟩] (fun _ => 0)).stored = none :=
  c8_total_failure 30000 (fun _ => FinnhubOutcome.httpError 500) (fun _ => 0) 0
    [⟨"S&P 500", "SPY", 1, 2, 3⟩] (fun _ => 0)
    (fun p _ => Or.inl ⟨500, rfl⟩)

theorem retryStart_ge (delay now lastReq : Nat) (h : lastReq ≤ now) :
    lastReq + delay ≤ retryStart delay now lastReq ∧
    now ≤ retryStart delay now lastReq := by
  unfold retryStart
  split <;> omega

theorem getQuoteCall_result (delay arrive gate d : Nat) (p : AVQuotePayload) :
    (getQuoteCall delay arrive gate d p).result = (processQuotePayload p).1 := rfl

theorem attemptLogEntry_mark (dur : String → Nat → Nat) (delay : Nat) (sym : String)
    (r now lastReq gate : Nat) :
    (attemptLogEntry dur delay sym r now lastReq gate).mark =
      retryStart delay now lastReq := rfl

theorem attemptLogEntry_wf (dur : String → Nat → Nat) (delay : Nat) (sym : String)
    (r now lastReq gate : Nat) :
    (attemptLogEntry dur delay sym r now lastReq gate).mark ≤
      (attemptLogEntry dur delay sym r now lastReq gate).wireStart ∧
    (attemptLogEntry dur delay sym r now lastReq gate).wireStart ≤
      (attemptLogEntry dur delay sym r now lastReq gate).done := by
  constructor
  · simp only [attemptLogEntry, throttleStart]
    exact le_max_left _ _
  · simp only [attemptLogEntry]
    exact Nat.le_add_right _ _

theorem attemptLogEntry_mark_le_done (dur : String → Nat → Nat) (delay : Nat)
    (sym : String) (r now lastReq gate : Nat) :
    (attemptLogEntry dur delay sym r now lastReq gate).mark ≤
      (attemptLogEntry dur delay sym r now lastReq gate).done :=
  le_trans (attemptLogEntry_wf dur delay sym r now lastReq gate).1
    (attemptLogEntry_wf dur delay sym r now lastReq gate).2

theorem retry_zero_eq (payload : String → Nat → AVQuotePayload)
    (dur : String → Nat → Nat) (delay : Nat) (sym : String) (now lastReq gate : Nat) :
    fetchQuoteWithRetry payload dur delay sym 0 now lastReq gate =
      ⟨(processQuotePayload (payload sym 0)).1,
       (attemptLogEntry dur delay sym 0 now lastReq gate).done,
       retryStart delay now lastReq,
       attemptGateAfter payload dur delay sym 0 now lastReq gate,
       [attemptLogEntry dur delay sym 0 now lastReq gate]⟩ := rfl

theorem retry_succ_some_eq (payload : String → Nat → AVQuotePayload)
    (dur : String → Nat → Nat) (delay : Nat) (sym : String) (r now lastReq gate : Nat)
    (q : StockQuote) (hres : (processQuotePayload (payload sym (r + 1))).1 = some q) :
    fetchQuoteWithRetry payload dur delay sym (r + 1) now lastReq gate =
      ⟨some q, (attemptLogEntry dur delay sym (r + 1) now lastReq gate).done,
       retryStart delay now lastReq,
       attemptGateAfter payload dur delay sym (r + 1) now lastReq gate,
       [attemptLogEntry dur delay sym (r + 1) now lastReq gate]⟩ := by
  simp only [fetchQuoteWithRetry, getQuoteCall_result, hres]
  rfl

theorem retry_succ_none_eq (payload : String → Nat → AVQuotePayload)
    (dur : String → Nat → Nat) (delay : Nat) (sym : String) (r now lastReq gate : Nat)
    (hres : (processQuotePayload (payload sym (r + 1))).1 = none) :
    fetchQuoteWithRetry payload dur delay sym (r + 1) now lastReq gate =
      ⟨(fetchQuoteWithRetry payload dur delay sym r
          ((attemptLogEntry dur delay sym (r + 1) now lastReq gate).done + delay)
          (retryStart delay now lastReq)
          (attemptGateAfter payload dur delay sym (r + 1) now lastReq gate)).result,
       (fetchQuoteWithRetry payload dur delay sym r
          ((attemptLogEntry dur delay sym (r + 1) now lastReq gate).done + delay)
          (retryStart delay now lastReq)
          (attemptGateAfter payload dur delay sym (r + 1) now lastReq gate)).endTime,
       (fetchQuoteWithRetry payload dur delay sym r
          ((attemptLogEntry dur delay sym (r + 1) now lastReq gate).done + delay)
          (retryStart delay now lastReq)
          (attemptGateAfter payload dur delay sym (r + 1) now lastReq gate)).lastReq,
       (fetchQuoteWithRetry payload dur delay sym r
          ((attemptLogEntry dur delay sym (r + 1) now lastReq gate).done + delay)
          (retryStart delay now lastReq)
          (attemptGateAfter payload dur delay sym (r + 1) now lastReq gate)).gate,
       attemptLogEntry dur delay sym (r + 1) now lastReq gate ::
         (fetchQuoteWithRetry payload dur delay sym r
           ((attemptLogEntry dur delay sym (r + 1) now lastReq gate).done + delay)
           (retryStart delay now lastReq)
           (attemptGateAfter payload dur delay sym (r + 1) now lastReq gate)).calls⟩ := by
  simp only [fetchQuoteWithRetry, getQuoteCall_result, hres]
  rfl

theorem retry_head (payload : String → Nat → AVQuotePayload) (dur : String → Nat → Nat)
    (delay : Nat) (sym : String) (retries now lastReq gate : Nat) :
    (fetchQuoteWithRetry payload dur delay sym retries now lastReq gate).calls.head? =
      some (attemptLogEntry dur delay sym retries now lastReq gate) := by
  cases retries with
  | zero => rw [retry_zero_eq]; rfl
  | succ r =>
      cases hres : (processQuotePayload (payload sym (r + 1))).1 with
      | some q =>
          rw [retry_succ_some_eq payload dur delay sym r now lastReq gate q hres]
          rfl
      | none =>
          rw [retry_succ_none_eq payload dur delay sym r now lastReq gate hres]
          rfl

theorem retry_calls_ne (payload : String → Nat → AVQuotePayload)
    (dur : String → Nat → Nat) (delay : Nat) (sym : String)
    (retries now lastReq gate : Nat) :
    (fetchQuoteWithRetry payload dur delay sym retries now lastReq gate).calls ≠ [] := by
  intro hnil
  have hh := retry_head payload dur delay sym retries now lastReq gate
  rw [hnil] at hh
  exact Option.noConfusion hh

theorem retry_syms (payload : String → Nat → AVQuotePayload) (dur : String → Nat → Nat)
    (delay : Nat) (sym : String) :
    ∀ (retries now lastReq gate : Nat),
      ∀ c ∈ (fetchQuoteWithRetry payload dur delay sym retries now lastReq gate).calls,
        c.sym = sym := by
  intro retries
  induction retries with
  | zero =>
      intro now lastReq gate c hc
      rw [retry_zero_eq] at hc
      simp only [List.mem_singleton] at hc
      rw [hc]
      rfl
  | succ r ih =>
      intro now lastReq gate c hc
      cases hres : (processQuotePayload (payload sym (r + 1))).1 with
      | some q =>
          rw [retry_succ_some_eq payload dur delay sym r now lastReq gate q hres] at hc
          simp only [List.mem_singleton] at hc
          rw [hc]
          rfl
      | none =>
          rw [retry_succ_none_eq payload dur delay sym r now lastReq gate hres] at hc
          rcases List.mem_cons.mp hc with rfl | hmem
          · rfl
          · exact ih _ _ _ c hmem

theorem retry_entries_wf (payload : String → Nat → AVQuotePayload)
    (dur : String → Nat → Nat) (delay : Nat) (sym : String) :
    ∀ (retries now lastReq gate : Nat),
      ∀ c ∈ (fetchQuoteWithRetry payload dur delay sym retries now lastReq gate).calls,
        c.mark ≤ c.wireStart ∧ c.wireStart ≤ c.done := by
  intro retries
  induction retries with
  | zero =>
      intro now lastReq gate c hc
      rw [retry_zero_eq] at hc
      simp only [List.mem_singleton] at hc
      rw [hc]
      exact attemptLogEntry_wf dur delay sym 0 now lastReq gate
  | succ r ih =>
      intro now lastReq gate c hc
      cases hres : (processQuotePayload (payload sym (r + 1))).1 with
      | some q =>
          rw [retry_succ_some_eq payload dur delay sym r now lastReq gate q hres] at hc
          simp only [List.mem_singleton] at hc
          rw [hc]
          exact attemptLogEntry_wf dur delay sym (r + 1) now lastReq gate
      | none =>
          rw [retry_succ_none_eq payload dur delay sym r now lastReq gate hres] at hc
          rcases List.mem_cons.mp hc with rfl | hmem
          · exact attemptLogEntry_wf dur delay sym (r + 1) now lastReq gate
          · exact ih _ _ _ c hmem

theorem retry_length (payload : String → Nat → AVQuotePayload)
    (dur : String → Nat → Nat) (delay : Nat) (sym : String) :
    ∀ (retries now lastReq gate : Nat),
      (fetchQuoteWithRetry payload dur delay sym retries now lastReq gate).calls.length ≤
        retries + 1 := by
  intro retries
  induction retries with
  | zero =>
      intro now lastReq gate
      rw [retry_zero_eq]
      simp
  | succ r ih =>
      intro now lastReq gate
      cases hres : (processQuotePayload (payload sym (r + 1))).1 with
      | some q =>
          rw [retry_succ_some_eq payload dur delay sym r now lastReq gate q hres]
          simp
      | none =>
          rw [retry_succ_none_eq payload dur delay sym r now lastReq gate hres]
          simpa using Nat.succ_le_succ (ih _ _ _)

theorem retry_lastReq_le (payload : String → Nat → AVQuotePayload)
    (dur : String → Nat → Nat) (delay : Nat) (sym : String) :
    ∀ (retries now lastReq gate : Nat),
      (fetchQuoteWithRetry payload dur delay sym retries now lastReq gate).lastReq ≤
        (fetchQuoteWithRetry payload dur delay sym retries now lastReq gate).endTime := by
  intro retries
  induction retries with
  | zero =>
      intro now lastReq gate
      rw [retry_zero_eq]
      exact attemptLogEntry_mark_le_done dur delay sym 0 now lastReq gate
  | succ r ih =>
      intro now lastReq gate
      cases hres : (processQuotePayload (payload sym (r + 1))).1 with
      | some q =>
          rw [retry_succ_some_eq payload dur delay sym r now lastReq gate q hres]
          exact attemptLogEntry_mark_le_done dur delay sym (r + 1) now lastReq gate
      | none =>
          rw [retry_succ_none_eq payload dur delay sym r now lastReq gate hres]
          exact ih _ _ _

theorem retry_last (payload : String → Nat → AVQuotePayload) (dur : String → Nat → Nat)
    (delay : Nat) (sym : String) :
    ∀ (retries now lastReq gate : Nat),
      ∀ x ∈ (fetchQuoteWithRetry payload dur delay sym retries now lastReq
          gate).calls.getLast?,
        x.mark = (fetchQuoteWithRetry payload dur delay sym retries now lastReq
          gate).lastReq ∧
        x.done = (fetchQuoteWithRetry payload dur delay sym retries now lastReq
          gate).endTime := by
  intro retries
  induction retries with
  | zero =>
      intro now lastReq gate x hx
      rw [retry_zero_eq] at hx ⊢
      simp only [List.getLast?_singleton, Option.mem_def, Option.some.injEq] at hx
      rw [← hx]
      exact ⟨rfl, rfl⟩
  | succ r ih =>
      intro now lastReq gate x hx
      cases hres : (processQuotePayload (payload sym (r + 1))).1 with
      | some q =>
          rw [retry_succ_some_eq payload dur delay sym r now lastReq gate q hres] at hx ⊢
          simp only [List.getLast?_singleton, Option.mem_def, Option.some.injEq] at hx
          rw [← hx]
          exact ⟨rfl, rfl⟩
      | none =>
          rw [retry_succ_none_eq payload dur delay sym r now lastReq gate hres] at hx ⊢
          simp only at hx ⊢
          cases hc : (fetchQuoteWithRetry payload dur delay sym r
              ((attemptLogEntry dur delay sym (r + 1) now lastReq gate).done + delay)
              (retryStart delay now lastReq)
              (attemptGateAfter payload dur delay sym (r + 1) now lastReq gate)).calls with
          | nil => exact absurd hc (retry_calls_ne payload dur delay sym r _ _ _)
          | cons c t =>
              rw [hc, List.getLast?_cons_cons, ← hc] at hx
              exact ih _ _ _ x hx

theorem retry_mark_chain (payload : String → Nat → AVQuotePayload)
    (dur : String → Nat → Nat) (delay : Nat) (sym : String) :
    ∀ (retries now lastReq gate : Nat),
      wellSpacedMark delay
        (fetchQuoteWithRetry payload dur delay sym retries now lastReq gate).calls := by
  intro retries
  induction retries with
  | zero =>
      intro now lastReq gate
      rw [retry_zero_eq]
      exact List.chain'_singleton _
  | succ r ih =>
      intro now lastReq gate
      cases hres : (processQuotePayload (payload sym (r + 1))).1 with
      | some q =>
          rw [retry_succ_some_eq payload dur delay sym r now lastReq gate q hres]
          exact List.chain'_singleton _
      | none =>
          rw [retry_succ_none_eq payload dur delay sym r now lastReq gate hres]
          simp only [wellSpacedMark] at ih ⊢
          refine List.chain'_cons'.mpr ⟨?_, ih _ _ _⟩
          intro y hy
          rw [retry_head payload dur delay sym r _ _ _] at hy
          simp only [Option.mem_def, Option.some.injEq] at hy
          rw [← hy, attemptLogEntry_mark, attemptLogEntry_mark]
          have hmd : retryStart delay now lastReq ≤
              (attemptLogEntry dur delay sym (r + 1) now lastReq gate).done :=
            attemptLogEntry_mark_le_done dur delay sym (r + 1) now lastReq gate
          exact (retryStart_ge delay
            ((attemptLogEntry dur delay sym (r + 1) now lastReq gate).done + delay)
            (retryStart delay now lastReq) (by omega)).1

theorem retry_seq_chain (payload : String → Nat → AVQuotePayload)
    (dur : String → Nat → Nat) (delay : Nat) (sym : String) :
    ∀ (retries now lastReq gate : Nat),
      sequentialCalls
        (fetchQuoteWithRetry payload dur delay sym retries now lastReq gate).calls := by
  intro retries
  induction retries with
  | zero =>
      intro now lastReq gate
      rw [retry_zero_eq]
      exact List.chain'_singleton _
  | succ r ih =>
      intro now lastReq gate
      cases hres : (processQuotePayload (payload sym (r + 1))).1 with
      | some q =>
          rw [retry_succ_some_eq payload dur delay sym r now lastReq gate q hres]
          exact List.chain'_singleton _
      | none =>
          rw [retry_succ_none_eq payload dur delay sym r now lastReq gate hres]
          simp only [sequentialCalls] at ih ⊢
          refine List.chain'_cons'.mpr ⟨?_, ih _ _ _⟩
          intro y hy
          rw [retry_head payload dur delay sym r _ _ _] at hy
          simp only [Option.mem_def, Option.some.injEq] at hy
          rw [← hy]
          have hmd : retryStart delay now lastReq ≤
              (attemptLogEntry dur delay sym (r + 1) now lastReq gate).done :=
            attemptLogEntry_mark_le_done dur delay sym (r + 1) now lastReq gate
          have hge := (retryStart_ge delay
            ((attemptLogEntry dur delay sym (r + 1) now lastReq gate).done + delay)
            (retryStart delay now lastReq) (by omega)).2
          have hwf := (attemptLogEntry_wf dur delay sym r
            ((attemptLogEntry dur delay sym (r + 1) now lastReq gate).done + delay)
            (retryStart delay now lastReq)
            (attemptGateAfter payload dur delay sym (r + 1) now lastReq gate)).1
          rw [attemptLogEntry_mark] at hwf
          omega

theorem retry_result_iff (payload : String → Nat → AVQuotePayload)
    (dur : String → Nat → Nat) (delay : Nat) (sym : String) :
    ∀ (retries now lastReq gate : Nat),
      ((fetchQuoteWithRetry payload dur delay sym retries now lastReq gate).result =
          none ↔
        ∀ k ≤ retries, (processQuotePayload (payload sym k)).1 = none) := by
  intro retries
  induction retries with
  | zero =>
      intro now lastReq gate
      rw [retry_zero_eq]
      constructor
      · intro h k hk
        have hk0 : k = 0 := Nat.le_zero.mp hk
        rw [hk0]
        exact h
      · intro h
        exact h 0 le_rfl
  | succ r ih =>
      intro now lastReq gate
      cases hres : (processQuotePayload (payload sym (r + 1))).1 with
      | some q =>
          rw [retry_succ_some_eq payload dur delay sym r now lastReq gate q hres]
          simp only
          constructor
          · intro h
            exact Option.noConfusion h
          · intro hall
            have := hall (r + 1) le_rfl
            rw [hres] at this
            exact Option.noConfusion this
      | none =>
          rw [retry_succ_none_eq payload dur delay sym r now lastReq gate hres]
          simp only
          rw [ih _ _ _]
          constructor
          · intro h k hk
            by_cases hk' : k ≤ r
            · exact h k hk'
            · have : k = r + 1 := by omega
              rw [this]
              exact hres
          · intro h k hk
            exact h k (by omega)

theorem batch_cons_eq (payload : String → Nat → AVQuotePayload)
    (dur : String → Nat → Nat) (delay : Nat) (sym : String) (rest : List String)
    (now lastReq gate : Nat) :
    getBatchQuotes payload dur delay (sym :: rest) now lastReq gate =
      ⟨(sym, (fetchQuoteWithRetry payload dur delay sym 3 now lastReq gate).result) ::
         (getBatchQuotes payload dur delay rest
           (fetchQuoteWithRetry payload dur delay sym 3 now lastReq gate).endTime
           (fetchQuoteWithRetry payload dur delay sym 3 now lastReq gate).lastReq
           (fetchQuoteWithRetry payload dur delay sym 3 now lastReq gate).gate).results,
       (getBatchQuotes payload dur delay rest
         (fetchQuoteWithRetry payload dur delay sym 3 now lastReq gate).endTime
         (fetchQuoteWithRetry payload dur delay sym 3 now lastReq gate).lastReq
         (fetchQuoteWithRetry payload dur delay sym 3 now lastReq gate).gate).endTime,
       (getBatchQuotes payload dur delay rest
         (fetchQuoteWithRetry payload dur delay sym 3 now lastReq gate).endTime
         (fetchQuoteWithRetry payload dur delay sym 3 now lastReq gate).lastReq
         (fetchQuoteWithRetry payload dur delay sym 3 now lastReq gate).gate).lastReq,
       (getBatchQuotes payload dur delay rest
         (fetchQuoteWithRetry payload dur delay sym 3 now lastReq gate).endTime
         (fetchQuoteWithRetry payload dur delay sym 3 now lastReq gate).lastReq
         (fetchQuoteWithRetry payload dur delay sym 3 now lastReq gate).gate).gate,
       (fetchQuoteWithRetry payload dur delay sym 3 now lastReq gate).calls ++
         (getBatchQuotes payload dur delay rest
           (fetchQuoteWithRetry payload dur delay sym 3 now lastReq gate).endTime
           (fetchQuoteWithRetry payload dur delay sym 3 now lastReq gate).lastReq
           (fetchQuoteWithRetry payload dur delay sym 3 now lastReq gate).gate).calls⟩ :=
  rfl

theorem batch_results_map (payload : String → Nat → AVQuotePayload)
    (dur : String → Nat → Nat) (delay : Nat) :
    ∀ (symbols : List String) (now lastReq gate : Nat),
      (getBatchQuotes payload dur delay symbols now lastReq gate).results.map Prod.fst =
        symbols := by
  intro symbols
  induction symbols with
  | nil => intro now lastReq gate; rfl
  | cons sym rest ih =>
      intro now lastReq gate
      rw [batch_cons_eq]
      simp only [List.map_cons]
      rw [ih _ _ _]

theorem batch_groups (payload : String → Nat → AVQuotePayload)
    (dur : String → Nat → Nat) (delay : Nat) :
    ∀ (symbols : List String) (now lastReq gate : Nat),
      ∃ groups : List (List AttemptLog),
        (getBatchQuotes payload dur delay symbols now lastReq gate).calls =
          groups.flatten ∧
        List.Forall₂ (fun sym grp => grp ≠ [] ∧ grp.length ≤ 4 ∧ ∀ c ∈ grp, c.sym = sym)
          symbols groups := by
  intro symbols
  induction symbols with
  | nil =>
      intro now lastReq gate
      exact ⟨[], rfl, List.Forall₂.nil⟩
  | cons sym rest ih =>
      intro now lastReq gate
      obtain ⟨groups, hj, hf⟩ := ih
        (fetchQuoteWithRetry payload dur delay sym 3 now lastReq gate).endTime
        (fetchQuoteWithRetry payload dur delay sym 3 now lastReq gate).lastReq
        (fetchQuoteWithRetry payload dur delay sym 3 now lastReq gate).gate
      refine ⟨(fetchQuoteWithRetry payload dur delay sym 3 now lastReq gate).calls ::
        groups, ?_, ?_⟩
      · rw [batch_cons_eq]
        simp only [List.flatten_cons]
        rw [hj]
      · exact List.Forall₂.cons
          ⟨retry_calls_ne payload dur delay sym 3 now lastReq gate,
           retry_length payload dur delay sym 3 now lastReq gate,
           retry_syms payload dur delay sym 3 now lastReq gate⟩ hf

theorem batch_wf (payload : String → Nat → AVQuotePayload) (dur : String → Nat → Nat)
    (delay : Nat) :
    ∀ (symbols : List String) (now lastReq gate : Nat),
      ∀ c ∈ (getBatchQuotes payload dur delay symbols now lastReq gate).calls,
        c.mark ≤ c.wireStart ∧ c.wireStart ≤ c.done := by
  intro symbols
  induction symbols with
  | nil =>
      intro now lastReq gate c hc
      exact absurd hc (List.not_mem_nil c)
  | cons sym rest ih =>
      intro now lastReq gate c hc
      rw [batch_cons_eq] at hc
      rcases List.mem_append.mp hc with hmem | hmem
      · exact retry_entries_wf payload dur delay sym 3 now lastReq gate c hmem
      · exact ih _ _ _ c hmem

theorem batch_spacing (payload : String → Nat → AVQuotePayload)
    (dur : String → Nat → Nat) (delay : Nat) :
    ∀ (symbols : List String) (now lastReq gate : Nat), lastReq ≤ now →
      wellSpacedMark delay (getBatchQuotes payload dur delay symbols now lastReq
        gate).calls ∧
      sequentialCalls (getBatchQuotes payload dur delay symbols now lastReq gate).calls ∧
      (∀ c ∈ (getBatchQuotes payload dur delay symbols now lastReq gate).calls.head?,
        lastReq + delay ≤ c.mark ∧ now ≤ c.wireStart) ∧
      (getBatchQuotes payload dur delay symbols now lastReq gate).lastReq ≤
        (getBatchQuotes payload dur delay symbols now lastReq gate).endTime := by
  intro symbols
  induction symbols with
  | nil =>
      intro now lastReq gate h
      refine ⟨List.chain'_nil, List.chain'_nil, ?_, h⟩
      intro c hc
      simp [getBatchQuotes] at hc
  | cons sym rest ih =>
      intro now lastReq gate h
      have h₁ := retry_lastReq_le payload dur delay sym 3 now lastReq gate
      obtain ⟨mch₂, sch₂, hd₂, le₂⟩ := ih
        (fetchQuoteWithRetry payload dur delay sym 3 now lastReq gate).endTime
        (fetchQuoteWithRetry payload dur delay sym 3 now lastReq gate).lastReq
        (fetchQuoteWithRetry payload dur delay sym 3 now lastReq gate).gate h₁
      have mch₁ := retry_mark_chain payload dur delay sym 3 now lastReq gate
      have sch₁ := retry_seq_chain payload dur delay sym 3 now lastReq gate
      have last₁ := retry_last payload dur delay sym 3 now lastReq gate
      have head₁ := retry_head payload dur delay sym 3 now lastReq gate
      rw [batch_cons_eq]
      refine ⟨?_, ?_, ?_, le₂⟩
      · simp only [wellSpacedMark] at mch₁ mch₂ ⊢
        refine List.chain'_append.mpr ⟨mch₁, mch₂, ?_⟩
        intro x hx y hy
        have hxm := (last₁ x hx).1
        have hym := (hd₂ y hy).1
        omega
      · simp only [sequentialCalls] at sch₁ sch₂ ⊢
        refine List.chain'_append.mpr ⟨sch₁, sch₂, ?_⟩
        intro x hx y hy
        have hxd := (last₁ x hx).2
        have hyw := (hd₂ y hy).2
        have hle := retry_lastReq_le payload dur delay sym 3 now lastReq gate
        omega
      · intro c hc
        cases hcalls : (fetchQuoteWithRetry payload dur delay sym 3 now lastReq
            gate).calls with
        | nil => exact absurd hcalls (retry_calls_ne payload dur delay sym 3 now lastReq gate)
        | cons c₀ t₀ =>
            rw [hcalls] at hc head₁
            simp only [List.cons_append, List.head?_cons, Option.mem_def,
              Option.some.injEq] at hc head₁
            rw [← hc, head₁, attemptLogEntry_mark]
            have hge := retryStart_ge delay now lastReq h
            refine ⟨hge.1, ?_⟩
            have hwf := (attemptLogEntry_wf dur delay sym 3 now lastReq gate).1
            rw [attemptLogEntry_mark] at hwf
            omega

theorem batch_null (payload : String → Nat → AVQuotePayload) (dur : String → Nat → Nat)
    (delay : Nat) :
    ∀ (symbols : List String) (now lastReq gate : Nat),
      ∀ p ∈ (getBatchQuotes payload dur delay symbols now lastReq gate).results,
        (p.2 = none ↔ ∀ k ≤ 3, (processQuotePayload (payload p.1 k)).1 = none) := by
  intro symbols
  induction symbols with
  | nil =>
      intro now lastReq gate p hp
      exact absurd hp (List.not_mem_nil p)
  | cons sym rest ih =>
      intro now lastReq gate p hp
      rw [batch_cons_eq] at hp
      rcases List.mem_cons.mp hp with rfl | hmem
      · exact retry_result_iff payload dur delay sym 3 now lastReq gate
      · exact ih _ _ _ p hmem

/-- C6 counterexample: the spacing conjunct of the claim fails on the code
because `lastRequestTime` is recorded before `getQuote`'s `throttle()`, so a
cooldown defers the wire call while the spacing bookkeeping stays at the
pre-throttle mark.  Concretely, with `RATE_LIMIT_DELAY_MS = 12000` and
initial gate 0: symbol A's four attempts all return null and the final one
(1000 ms latency) is rate-limited, setting the gate; B's wire call is
deferred to the gate at t = 149300, but C's attempt measures its spacing
from B's pre-throttle mark and fires its wire call at t = 160300 — only
11000 ms after B's, below the configured 12000 ms minimum. -/
theorem c6_spacing_counterexample :
    (getBatchQuotes cexBatchPayload cexBatchDur 12000 ["A", "B", "C"]
        100000 0 0).calls.map (fun c => c.wireStart) =
      [100000, 112100, 124200, 136300, 149300, 160300] ∧
    ¬ wellSpacedWire 12000
      (getBatchQuotes cexBatchPayload cexBatchDur 12000 ["A", "B", "C"]
        100000 0 0).calls := by
  constructor
  · decide
  · intro h
    have hc : (getBatchQuotes cexBatchPayload cexBatchDur 12000 ["A", "B", "C"]
        100000 0 0).calls =
        [⟨"A", 100000, 100000, 100100⟩, ⟨"A", 112100, 112100, 112200⟩,
         ⟨"A", 124200, 124200, 124300⟩, ⟨"A", 136300, 136300, 137300⟩,
         ⟨"B", 148300, 149300, 149800⟩, ⟨"C", 160300, 160300, 160600⟩] := by decide
    rw [hc] at h
    simp only [wellSpacedWire, List.chain'_cons, List.chain'_singleton, and_true] at h
    omega

/-- C6 amended: `getBatchQuotes` (initial `lastRequestTime = 0`, any initial
gate) processes the symbols strictly sequentially in input order: the call
log is the in-order concatenation of per-symbol groups, each non-empty with
at most four attempts (one call plus three retries), and each wire call
begins only after the previous one's response was processed (never in
parallel).  The spacing wait is applied to the recorded `lastRequestTime`
marks — consecutive marks are at least the spacing interval apart, and every
wire call starts no earlier than its mark — but wire calls themselves can
start closer than the interval when the gate's cooldown defers one of them.
A symbol's entry is null exactly when all four of its attempts returned
null. -/
theorem c6_batch_sequential_retry (payload : String → Nat → AVQuotePayload)
    (dur : String → Nat → Nat) (delay : Nat) (symbols : List String)
    (now gate : Nat) :
    (getBatchQuotes payload dur delay symbols now 0 gate).results.map Prod.fst =
      symbols ∧
    (∃ groups : List (List AttemptLog),
      (getBatchQuotes payload dur delay symbols now 0 gate).calls = groups.flatten ∧
      List.Forall₂ (fun sym grp => grp ≠ [] ∧ grp.length ≤ 4 ∧ ∀ c ∈ grp, c.sym = sym)
        symbols groups) ∧
    wellSpacedMark delay (getBatchQuotes payload dur delay symbols now 0 gate).calls ∧
    sequentialCalls (getBatchQuotes payload dur delay symbols now 0 gate).calls ∧
    (∀ c ∈ (getBatchQuotes payload dur delay symbols now 0 gate).calls,
      c.mark ≤ c.wireStart ∧ c.wireStart ≤ c.done) ∧
    ∀ p ∈ (getBatchQuotes payload dur delay symbols now 0 gate).results,
      (p.2 = none ↔ ∀ k ≤ 3, (processQuotePayload (payload p.1 k)).1 = none) :=
  ⟨batch_results_map payload dur delay symbols now 0 gate,
   batch_groups payload dur delay symbols now 0 gate,
   (batch_spacing payload dur delay symbols now 0 gate (Nat.zero_le now)).1,
   (batch_spacing payload dur delay symbols now 0 gate (Nat.zero_le now)).2.1,
   batch_wf payload dur delay symbols now 0 gate,
   batch_null payload dur delay symbols now 0 gate⟩

end FinDash
